import Mathlib

/-!
Shallow embedding of the WebRTC meeting client
(`src/features/video-call/hooks/useWebRTC.ts`).

The hook's mutable React state is modelled as an explicit record
(`RTCState`); each socket event handler becomes a pure state-transition
function that may also emit outbound signaling messages (`OutMsg`).
JavaScript `Map`s (insertion-ordered, keyed by peer id) are modelled as
association lists with the usual `get` / `set` / `delete` / `has`
operations.  Media streams and ICE candidates are identified by opaque
numeric ids; track kinds are strings ("audio" / "video"), as in the DOM.
-/

namespace WebRTC

/-- A media track: `kind` is the DOM `MediaStreamTrack.kind` string
("audio" or "video"); `tid` an opaque identity. -/
structure Track where
  kind : String
  tid : Nat
deriving DecidableEq, Repr

/-- An RTCRtpSender: holds the (nullable) track it currently sends. -/
structure Sender where
  track : Option Track
deriving DecidableEq, Repr

/-- A peer connection: the senders added to it via `addTrack`. -/
structure PeerConn where
  senders : List Sender
deriving DecidableEq, Repr

/-- One roster entry, from the `Participant` interface of the source:
`{ id, name, stream, isMicOn, isCameraOn }`.  The stream is an opaque
id, `none` until a remote track arrives. -/
structure Participant where
  id : String
  name : String
  stream : Option Nat
  isMicOn : Bool
  isCameraOn : Bool
deriving DecidableEq, Repr

/-- A host-side pending join request: `{ userId, userName }`. -/
structure JoinReq where
  userId : String
  userName : String
deriving DecidableEq, Repr

/-- The client-wide connection status union type
`'connecting' | 'waiting' | 'joined' | 'rejected'`. -/
inductive ConnStatus where
  | connecting
  | waiting
  | joined
  | rejected
deriving DecidableEq, Repr

/-- Payload description of `existing-users` entries: `{ userId, userName }`. -/
structure UserInfo where
  userId : String
  userName : String
deriving DecidableEq, Repr

/-! ### JavaScript `Map` as an association list -/

/-- Model of `Map.get`: value stored at `k`, if any (first binding wins). -/
def mapGet {α : Type} : List (String × α) → String → Option α
  | [], _ => none
  | kv :: rest, k => if kv.1 == k then some kv.2 else mapGet rest k

/-- Model of `Map.has`. -/
def mapHas {α : Type} : List (String × α) → String → Bool
  | [], _ => false
  | kv :: rest, k => kv.1 == k || mapHas rest k

/-- Model of `Map.set`: replace in place when the key exists, else append
(insertion order preserved, as for a JS `Map`). -/
def mapSet {α : Type} (m : List (String × α)) (k : String) (v : α) :
    List (String × α) :=
  if mapHas m k then m.map (fun kv => if kv.1 == k then (k, v) else kv)
  else m ++ [(k, v)]

/-- Model of `Map.delete`. -/
def mapDelete {α : Type} : List (String × α) → String → List (String × α)
  | [], _ => []
  | kv :: rest, k =>
    if kv.1 == k then mapDelete rest k else kv :: mapDelete rest k

theorem mapGet_mapDelete_same {α : Type} (m : List (String × α)) (k : String) :
    mapGet (mapDelete m k) k = none := by
  induction m with
  | nil => rfl
  | cons kv rest ih =>
    by_cases h : kv.1 = k
    · simpa [mapDelete, h] using ih
    · simpa [mapDelete, mapGet, h] using ih

theorem mapGet_replace {α : Type} (m : List (String × α)) (k : String) (v : α)
    (h : mapHas m k = true) :
    mapGet (m.map (fun kv => if kv.1 == k then (k, v) else kv)) k = some v := by
  induction m with
  | nil => simp [mapHas] at h
  | cons kv rest ih =>
    by_cases hk : kv.1 = k
    · simp [mapGet, hk]
    · have hrest : mapHas rest k = true := by
        simpa [mapHas, hk] using h
      simpa [mapGet, hk] using ih hrest

theorem mapGet_append_new {α : Type} (m : List (String × α)) (k : String) (v : α) :
    mapGet (m ++ [(k, v)]) k = some v ∨ mapHas m k = true := by
  induction m with
  | nil => left; simp [mapGet]
  | cons kv rest ih =>
    by_cases hk : kv.1 = k
    · right; simp [mapHas, hk]
    · rcases ih with h | h
      · left; simpa [mapGet, hk] using h
      · right; simp [mapHas, h]

theorem mapGet_mapSet_same {α : Type} (m : List (String × α)) (k : String) (v : α) :
    mapGet (mapSet m k v) k = some v := by
  by_cases h : mapHas m k
  · simp only [mapSet, h, if_true]
    exact mapGet_replace m k v h
  · simp only [mapSet, h, if_false]
    rcases mapGet_append_new m k v with hh | hh
    · exact hh
    · exact absurd hh h

/-! ### Outbound signaling messages -/

/-- Messages emitted on the socket by the handlers we model. -/
inductive OutMsg where
  | offerMsg (roomId : String) (toId : String) (senderName : String)
  | answerMsg (roomId : String) (toId : String)
  | iceCandidate (roomId : String) (toId : String) (candidate : Nat)
  | admitUserMsg (userId : String) (roomId : String)
  | rejectUserMsg (userId : String) (roomId : String)
deriving DecidableEq, Repr

/-! ### Hook state

The mutable state held by `useWebRTC`: `participants`, `peersRef`,
`pendingRequests`, `connectionStatus`, plus whether the shared socket is
currently connected (it is disconnected by the `join-rejected` handler),
and a log of peer ids whose connection was `close()`d. -/

structure RTCState where
  participants : List Participant
  peers : List (String × PeerConn)
  pendingRequests : List JoinReq
  connectionStatus : ConnStatus
  socketConnected : Bool
  closedIds : List String
deriving DecidableEq, Repr

/-- State right after mount: `useState` initialisers plus
`currentSocket.connect()`. -/
def initState : RTCState :=
  { participants := []
    peers := []
    pendingRequests := []
    connectionStatus := ConnStatus.connecting
    socketConnected := true
    closedIds := [] }

/-- A fresh `Participant` as built by the handlers:
`{ id, name, stream: null, isMicOn: true, isCameraOn: true }`. -/
def newParticipant (userId userName : String) : Participant :=
  { id := userId, name := userName, stream := none
    isMicOn := true, isCameraOn := true }

/-! ### Peer Connection Manager operations -/

/-- Translation of `createPeerConnection(userId, userName, isInitiator, stream)`:
no-op when a connection for `userId` already exists; otherwise builds an
`RTCPeerConnection`, adds every local track to it, and (when initiator)
creates and sends an offer. -/
def createPeerConnection (roomId : String) (s : RTCState)
    (userId userName : String) (isInitiator : Bool) (localTracks : List Track) :
    RTCState × List OutMsg :=
  if mapHas s.peers userId then (s, [])
  else
    let pc : PeerConn := { senders := localTracks.map (fun t => { track := some t }) }
    let s' := { s with peers := mapSet s.peers userId pc }
    if isInitiator then (s', [OutMsg.offerMsg roomId userId userName])
    else (s', [])

/-- One sender-list pass of `replaceTrack`:
`pc.getSenders().find(s => s.track?.kind === newTrack.kind)` followed by
`sender.replaceTrack(newTrack)` — the first sender whose current track
kind matches is given the new track, all others are untouched. -/
def replaceSenders (senders : List Sender) (newTrack : Track) : List Sender :=
  match senders with
  | [] => []
  | sd :: rest =>
    if sd.track.map Track.kind == some newTrack.kind then
      { sd with track := some newTrack } :: rest
    else sd :: replaceSenders rest newTrack

/-- Translation of `replaceTrack(newTrack)`: applied across every held connection. -/
def replaceTrack (peers : List (String × PeerConn)) (newTrack : Track) :
    List (String × PeerConn) :=
  peers.map (fun kv => (kv.1, { senders := replaceSenders kv.2.senders newTrack }))

/-- Translation of `admitUser(userId)`: emit `admit-user` and filter the request out. -/
def admitUser (roomId : String) (s : RTCState) (userId : String) :
    RTCState × List OutMsg :=
  ({ s with pendingRequests := s.pendingRequests.filter (fun req => req.userId != userId) },
   [OutMsg.admitUserMsg userId roomId])

/-- Translation of `rejectUser(userId)`: emit `reject-user` and filter the request out. -/
def rejectUser (roomId : String) (s : RTCState) (userId : String) :
    RTCState × List OutMsg :=
  ({ s with pendingRequests := s.pendingRequests.filter (fun req => req.userId != userId) },
   [OutMsg.rejectUserMsg userId roomId])

/-! ### Inbound events and their handlers -/

/-- The `existing-users` dedup: `users.filter((user, index, self) =>
index === self.findIndex(u => u.userId === user.userId))`. -/
def dedupExistingUsers (users : List UserInfo) : List UserInfo :=
  ((users.enum).filter
    (fun iu => users.findIdx? (fun u => u.userId == iu.2.userId) == some iu.1)).map
    Prod.snd

/-- The `join-request` handler: append the request, unconditionally. -/
def handleJoinRequest (s : RTCState) (req : JoinReq) : RTCState :=
  { s with pendingRequests := s.pendingRequests ++ [req] }

/-- The `user-joined` handler: add a Participant unless one with that id
exists, then `createPeerConnection(..., isInitiator := true)`. -/
def handleUserJoined (roomId : String) (localTracks : List Track)
    (s : RTCState) (userId userName : String) : RTCState × List OutMsg :=
  let parts :=
    if s.participants.any (fun p => p.id == userId) then s.participants
    else s.participants ++ [newParticipant userId userName]
  createPeerConnection roomId { s with participants := parts }
    userId userName true localTracks

/-- The `offer` handler: ensure Participant and PeerConnection exist for the
sender, then answer (`setRemoteDescription` / `createAnswer` /
`setLocalDescription` have no observable effect in this model). -/
def handleOffer (roomId : String) (localTracks : List Track)
    (s : RTCState) (fromId userName : String) : RTCState × List OutMsg :=
  let parts :=
    if s.participants.any (fun p => p.id == fromId) then s.participants
    else s.participants ++ [newParticipant fromId userName]
  let res :=
    createPeerConnection roomId { s with participants := parts }
      fromId userName false localTracks
  (res.1, res.2 ++ [OutMsg.answerMsg roomId fromId])

/-- The `user-left` handler: close and delete the connection if present,
filter the participant out of the roster. -/
def handleUserLeft (s : RTCState) (userId : String) : RTCState :=
  let closed :=
    if mapHas s.peers userId then s.closedIds ++ [userId] else s.closedIds
  { s with peers := mapDelete s.peers userId
           closedIds := closed
           participants := s.participants.filter (fun p => p.id != userId) }

/-- The `existing-users` handler: deduplicate the snapshot by `userId`,
replace the roster with fresh participants, and set status `joined`. -/
def handleExistingUsers (s : RTCState) (users : List UserInfo) : RTCState :=
  { s with
      participants :=
        (dedupExistingUsers users).map (fun u => newParticipant u.userId u.userName)
      connectionStatus := ConnStatus.joined }

/-- The `media-status-update` handler. -/
def handleMediaStatusUpdate (s : RTCState) (userId : String)
    (kindIsAudio : Bool) (isOn : Bool) : RTCState :=
  { s with participants := s.participants.map (fun p =>
      if p.id == userId then
        if kindIsAudio then { p with isMicOn := isOn }
        else { p with isCameraOn := isOn }
      else p) }

/-- The `pc.ontrack` callback for the connection with `userId`: store the
remote stream on the matching Participant. -/
def handleRemoteTrack (s : RTCState) (userId : String) (streamId : Nat) :
    RTCState :=
  { s with participants := s.participants.map (fun p =>
      if p.id == userId then { p with stream := some streamId } else p) }

/-- Inbound events driving the state machine: the socket events the
hook subscribes to, plus the per-connection `ontrack` callback. -/
inductive InEvent where
  | waitingForApproval
  | joinApproved
  | joinRejected
  | joinRequest (userId userName : String)
  | userJoined (userId userName : String)
  | mediaStatusUpdate (userId : String) (kindIsAudio isOn : Bool)
  | offerEvt (fromId userName : String)
  | answerEvt (fromId : String)
  | iceCandidateEvt (fromId : String) (candidate : Nat)
  | userLeft (userId userName : String)
  | existingUsers (users : List UserInfo)
  | remoteTrack (userId : String) (streamId : Nat)
deriving DecidableEq, Repr

/-- Dispatch one inbound event.  Socket events are delivered only while
the socket is connected (after `join-rejected` calls
`currentSocket.disconnect()`, the transport delivers nothing further);
`remoteTrack` is a connection callback, not a socket event. -/
def step (roomId : String) (localTracks : List Track)
    (s : RTCState) (e : InEvent) : RTCState × List OutMsg :=
  match e with
  | InEvent.remoteTrack userId streamId => (handleRemoteTrack s userId streamId, [])
  | _ =>
    if s.socketConnected then
      match e with
      | InEvent.waitingForApproval =>
        ({ s with connectionStatus := ConnStatus.waiting }, [])
      | InEvent.joinApproved =>
        ({ s with connectionStatus := ConnStatus.joined }, [])
      | InEvent.joinRejected =>
        ({ s with connectionStatus := ConnStatus.rejected, socketConnected := false }, [])
      | InEvent.joinRequest userId userName =>
        (handleJoinRequest s { userId := userId, userName := userName }, [])
      | InEvent.userJoined userId userName =>
        handleUserJoined roomId localTracks s userId userName
      | InEvent.mediaStatusUpdate userId kindIsAudio isOn =>
        (handleMediaStatusUpdate s userId kindIsAudio isOn, [])
      | InEvent.offerEvt fromId userName =>
        handleOffer roomId localTracks s fromId userName
      | InEvent.answerEvt _ => (s, [])
      | InEvent.iceCandidateEvt _ _ => (s, [])
      | InEvent.userLeft userId _ => (handleUserLeft s userId, [])
      | InEvent.existingUsers users => (handleExistingUsers s users, [])
      | InEvent.remoteTrack userId streamId =>
        (handleRemoteTrack s userId streamId, [])
    else (s, [])

/-- Run a sequence of inbound events from a state. -/
def run (roomId : String) (localTracks : List Track)
    (s : RTCState) : List InEvent → RTCState
  | [] => s
  | e :: rest => run roomId localTracks (step roomId localTracks s e).1 rest

/-! ### ICE Batching Buffer

`pc.onicecandidate` pushes each gathered candidate onto the per-peer
queue `iceCandidateQueue` and re-arms a 50 ms timer in
`iceCandidateTimers` (clearing any existing timer for that peer).  The
timer callback sends each queued candidate as its own `ice-candidate`
message, deletes the queue entry, and deletes the timer entry. -/

/-- The two ref maps `iceCandidateQueue` / `iceCandidateTimers`
(timer values model the scheduled fire time). -/
structure IceState where
  queue : List (String × List Nat)
  timers : List (String × Nat)
deriving DecidableEq, Repr

/-- The `setTimeout` callback from `pc.onicecandidate`: read the queued
candidates for `userId`, send each as an `ice-candidate` message if any
are queued, delete the queue entry, then delete the timer entry. -/
def fireIceTimer (roomId : String) (st : IceState) (userId : String) :
    IceState × List OutMsg :=
  if ((mapGet st.queue userId).getD []).length > 0 then
    ({ queue := mapDelete st.queue userId
       timers := mapDelete st.timers userId },
     ((mapGet st.queue userId).getD []).map
       (fun c => OutMsg.iceCandidate roomId userId c))
  else
    ({ st with timers := mapDelete st.timers userId }, [])

/-- Timed single-peer debounce simulation.  Input: gathering events
`(t, c)` (candidate `c` gathered at time `t`), in time order.  State:
the pending queue and the armed timer's fire time, if any.  A pending
timer whose fire time has passed flushes first (emitting the queued
candidates as one flush event, provided the queue is non-empty); the
new candidate is then queued and the timer re-armed to `t + 50`
(`clearTimeout` of the previous timer followed by a fresh
`setTimeout(..., 50)`).  After the last event, a still-armed timer
fires. -/
def iceRun : List (Nat × Nat) → List Nat → Option Nat → List (Nat × List Nat)
  | [], q, d =>
    match d with
    | some dl => if q.length > 0 then [(dl, q)] else []
    | none => []
  | (t, c) :: rest, q, d =>
    match d with
    | some dl =>
      if dl ≤ t then
        if q.length > 0 then (dl, q) :: iceRun rest [c] (some (t + 50))
        else iceRun rest [c] (some (t + 50))
      else iceRun rest (q ++ [c]) (some (t + 50))
    | none => iceRun rest (q ++ [c]) (some (t + 50))

/-- Flush events produced by a gathering trace, starting from an empty
buffer with no armed timer. -/
def iceFlushes (events : List (Nat × Nat)) : List (Nat × List Nat) :=
  iceRun events [] none

/-! ### Characterisation of the `existing-users` dedup

`dedupExistingUsers` keeps exactly the first occurrence per `userId`.
`firstOcc l seen` is the straightforward keep-first-occurrence
recursion (relative to already-seen ids); we prove the indexed filter
of the source equal to it and derive `Nodup` / membership facts. -/

/-- Keep the first occurrence per `userId`, given ids already seen. -/
def firstOcc : List UserInfo → List String → List UserInfo
  | [], _ => []
  | u :: rest, seen =>
    if u.userId ∈ seen then firstOcc rest (seen ++ [u.userId])
    else u :: firstOcc rest (seen ++ [u.userId])

theorem findIdx?_append_skip {α : Type} (p : α → Bool) (pre l₂ : List α) (i : Nat)
    (h : ∀ x ∈ pre, p x = false) :
    List.findIdx? p (pre ++ l₂) i = List.findIdx? p l₂ (i + pre.length) := by
  induction pre generalizing i with
  | nil => simp
  | cons a rest ih =>
    have ha : p a = false := h a (by simp)
    have hrest : ∀ x ∈ rest, p x = false := fun x hx => h x (by simp [hx])
    rw [List.cons_append, List.findIdx?_cons, ha]
    simp only [Bool.false_eq_true, if_false]
    rw [ih (i + 1) hrest]
    congr 1
    simp [List.length_cons]
    omega

theorem findIdx?_append_hit {α : Type} (p : α → Bool) (pre l₂ : List α) (i : Nat)
    (x : α) (hx : x ∈ pre) (hp : p x = true) :
    ∃ j, j < i + pre.length ∧ List.findIdx? p (pre ++ l₂) i = some j := by
  induction pre generalizing i with
  | nil => simp at hx
  | cons a rest ih =>
    rw [List.cons_append, List.findIdx?_cons]
    by_cases ha : p a = true
    · refine ⟨i, ?_, by simp [ha]⟩
      simp only [List.length_cons]
      omega
    · have hx' : x ∈ rest := by
        rcases List.mem_cons.mp hx with h | h
        · subst h; exact absurd hp ha
        · exact h
      rcases ih (i + 1) hx' with ⟨j, hj, hfi⟩
      refine ⟨j, ?_, ?_⟩
      · simp only [List.length_cons]
        omega
      · rw [if_neg ha, hfi]

theorem dedup_go (post pre : List UserInfo) :
    ((List.enumFrom pre.length post).filter
      (fun iu => (pre ++ post).findIdx? (fun u => u.userId == iu.2.userId)
          == some iu.1)).map Prod.snd
      = firstOcc post (pre.map UserInfo.userId) := by
  induction post generalizing pre with
  | nil => simp [firstOcc]
  | cons u rest ih =>
    rw [List.enumFrom_cons, List.filter_cons]
    by_cases hseen : u.userId ∈ pre.map UserInfo.userId
    · -- some earlier element has the same id: the head is dropped
      rcases List.mem_map.mp hseen with ⟨x, hxmem, hxid⟩
      rcases findIdx?_append_hit (fun v => v.userId == u.userId) pre (u :: rest) 0
          x hxmem (by simp [hxid]) with ⟨j, hj, hfi⟩
      have hcond :
          ((pre ++ u :: rest).findIdx? (fun v => v.userId == u.userId)
            == some pre.length) = false := by
        rw [hfi]
        simp only [Nat.zero_add] at hj
        simp [Nat.ne_of_lt hj]
      rw [hcond]
      simp only [Bool.false_eq_true, if_false]
      have heq := ih (pre ++ [u])
      rw [List.append_assoc] at heq
      simp only [List.singleton_append, List.length_append, List.length_cons,
        List.length_nil, List.map_append, List.map_cons, List.map_nil] at heq
      rw [firstOcc, if_pos hseen]
      rw [← heq]
    · -- first occurrence: the head is kept
      have hall : ∀ x ∈ pre, (x.userId == u.userId) = false := by
        intro x hx
        by_cases hxu : x.userId = u.userId
        · exact absurd (List.mem_map.mpr ⟨x, hx, hxu⟩) hseen
        · simp [hxu]
      have hfi := findIdx?_append_skip (fun v => v.userId == u.userId)
        pre (u :: rest) 0 hall
      rw [List.findIdx?_cons] at hfi
      simp only [beq_self_eq_true, if_true, Nat.zero_add] at hfi
      have hcond :
          ((pre ++ u :: rest).findIdx? (fun v => v.userId == u.userId)
            == some pre.length) = true := by
        rw [hfi]; simp
      rw [hcond]
      simp only [if_true]
      have heq := ih (pre ++ [u])
      rw [List.append_assoc] at heq
      simp only [List.singleton_append, List.length_append, List.length_cons,
        List.length_nil, List.map_append, List.map_cons, List.map_nil] at heq
      rw [firstOcc, if_neg hseen]
      rw [List.map_cons, ← heq]

theorem dedupExistingUsers_eq_firstOcc (users : List UserInfo) :
    dedupExistingUsers users = firstOcc users [] := by
  have h := dedup_go users []
  simpa [dedupExistingUsers, List.enum] using h

theorem firstOcc_not_mem_seen (l : List UserInfo) (seen : List String) :
    ∀ u ∈ firstOcc l seen, u.userId ∉ seen := by
  induction l generalizing seen with
  | nil => intro u hu; simp [firstOcc] at hu
  | cons a rest ih =>
    intro u hu
    rw [firstOcc] at hu
    by_cases ha : a.userId ∈ seen
    · rw [if_pos ha] at hu
      have := ih (seen ++ [a.userId]) u hu
      intro hc; exact this (by simp [hc])
    · rw [if_neg ha] at hu
      rcases List.mem_cons.mp hu with h | h
      · subst h; exact ha
      · have := ih (seen ++ [a.userId]) u h
        intro hc; exact this (by simp [hc])

theorem firstOcc_nodup (l : List UserInfo) (seen : List String) :
    ((firstOcc l seen).map UserInfo.userId).Nodup := by
  induction l generalizing seen with
  | nil => simp [firstOcc]
  | cons a rest ih =>
    rw [firstOcc]
    by_cases ha : a.userId ∈ seen
    · rw [if_pos ha]; exact ih (seen ++ [a.userId])
    · rw [if_neg ha]
      rw [List.map_cons, List.nodup_cons]
      constructor
      · intro hc
        rcases List.mem_map.mp hc with ⟨u, humem, huid⟩
        have := firstOcc_not_mem_seen rest (seen ++ [a.userId]) u humem
        exact this (by simp [huid])
      · exact ih (seen ++ [a.userId])

theorem firstOcc_mem_iff (l : List UserInfo) (seen : List String) (uid : String) :
    (uid ∈ (firstOcc l seen).map UserInfo.userId) ↔
      (uid ∈ l.map UserInfo.userId ∧ uid ∉ seen) := by
  induction l generalizing seen with
  | nil => simp [firstOcc]
  | cons a rest ih =>
    rw [firstOcc]
    by_cases ha : a.userId ∈ seen
    · rw [if_pos ha]
      rw [ih (seen ++ [a.userId])]
      by_cases huid : uid = a.userId
      · subst huid
        simp [ha]
      · simp only [List.map_cons, List.mem_cons, List.mem_append,
          List.mem_singleton]
        constructor
        · rintro ⟨hmem, hnot⟩
          exact ⟨Or.inr hmem, fun hc => hnot (Or.inl hc)⟩
        · rintro ⟨hmem, hnot⟩
          rcases hmem with h | h
          · exact absurd h huid
          · refine ⟨h, fun hc => ?_⟩
            rcases hc with hc | hc
            · exact hnot hc
            · rcases hc with hc | hc
              · exact huid hc
              · simp at hc
    · rw [if_neg ha]
      rw [List.map_cons, List.mem_cons, ih (seen ++ [a.userId])]
      by_cases huid : uid = a.userId
      · subst huid
        simp [ha]
      · simp only [List.map_cons, List.mem_cons, List.mem_append,
          List.mem_singleton]
        constructor
        · rintro (h | ⟨hmem, hnot⟩)
          · exact absurd h huid
          · exact ⟨Or.inr hmem, fun hc => hnot (Or.inl hc)⟩
        · rintro ⟨hmem, hnot⟩
          rcases hmem with h | h
          · exact absurd h huid
          · refine Or.inr ⟨h, fun hc => ?_⟩
            rcases hc with hc | hc
            · exact hnot hc
            · rcases hc with hc | hc
              · exact huid hc
              · simp at hc

/-! ### Support lemmas on the step function -/

theorem createPeerConnection_fields (roomId : String) (s : RTCState)
    (uid un : String) (b : Bool) (lt : List Track) :
    (createPeerConnection roomId s uid un b lt).1.connectionStatus = s.connectionStatus ∧
    (createPeerConnection roomId s uid un b lt).1.socketConnected = s.socketConnected ∧
    (createPeerConnection roomId s uid un b lt).1.participants = s.participants ∧
    (createPeerConnection roomId s uid un b lt).1.pendingRequests = s.pendingRequests := by
  unfold createPeerConnection
  split_ifs <;> simp

theorem mapHas_eq_isSome {α : Type} (m : List (String × α)) (k : String) :
    mapHas m k = (mapGet m k).isSome := by
  induction m with
  | nil => rfl
  | cons kv rest ih =>
    by_cases h : kv.1 = k
    · simp [mapHas, mapGet, h]
    · have hb : (kv.1 == k) = false := by simp [h]
      simpa [mapHas, mapGet, hb] using ih

theorem mapHas_mapSet_same {α : Type} (m : List (String × α)) (k : String) (v : α) :
    mapHas (mapSet m k v) k = true := by
  rw [mapHas_eq_isSome, mapGet_mapSet_same]
  rfl

theorem createPeerConnection_has (roomId : String) (s : RTCState)
    (uid un : String) (b : Bool) (lt : List Track) :
    mapHas (createPeerConnection roomId s uid un b lt).1.peers uid = true := by
  unfold createPeerConnection
  by_cases h : mapHas s.peers uid
  · simp [h]
  · simp only [h, Bool.false_eq_true, if_false]
    split_ifs <;> simpa using mapHas_mapSet_same s.peers uid _

/-- While the socket is disconnected nothing but `ontrack` runs, and
`ontrack` touches neither status nor socket flag nor pending queue. -/
theorem step_disconnected (roomId : String) (lt : List Track)
    (s : RTCState) (e : InEvent) (hc : s.socketConnected = false) :
    (step roomId lt s e).1.connectionStatus = s.connectionStatus ∧
    (step roomId lt s e).1.socketConnected = s.socketConnected ∧
    (step roomId lt s e).1.pendingRequests = s.pendingRequests := by
  cases e <;> simp [step, hc, handleRemoteTrack]

/-- Steps preserve the invariant "status `rejected` implies the socket
is already disconnected". -/
theorem step_rejected_inv (roomId : String) (lt : List Track)
    (s : RTCState) (e : InEvent)
    (h : s.connectionStatus = ConnStatus.rejected → s.socketConnected = false) :
    (step roomId lt s e).1.connectionStatus = ConnStatus.rejected →
      (step roomId lt s e).1.socketConnected = false := by
  by_cases hc : s.socketConnected
  · cases e with
    | waitingForApproval => intro hr; simp [step, hc] at hr
    | joinApproved => intro hr; simp [step, hc] at hr
    | joinRejected => intro _; simp [step, hc]
    | joinRequest uid un =>
      intro hr
      simp [step, hc, handleJoinRequest] at hr
      simp [step, hc, handleJoinRequest, h hr, hc] at *
      exact absurd (h hr) (by simp [hc])
    | userJoined uid un =>
      intro hr
      rw [step] at hr ⊢
      simp only [hc, if_true] at hr ⊢
      rw [handleUserJoined] at hr ⊢
      rcases createPeerConnection_fields roomId
        { s with participants :=
            if s.participants.any (fun p => p.id == uid) then s.participants
            else s.participants ++ [newParticipant uid un] }
        uid un true lt with ⟨hst, hsc, _, _⟩
      rw [hst] at hr
      exact absurd (h hr) (by simp [hc])
    | mediaStatusUpdate uid ka io =>
      intro hr
      simp [step, hc, handleMediaStatusUpdate] at hr
      exact absurd (h hr) (by simp [hc])
    | offerEvt fid un =>
      intro hr
      rw [step] at hr ⊢
      simp only [hc, if_true] at hr ⊢
      rw [handleOffer] at hr ⊢
      rcases createPeerConnection_fields roomId
        { s with participants :=
            if s.participants.any (fun p => p.id == fid) then s.participants
            else s.participants ++ [newParticipant fid un] }
        fid un false lt with ⟨hst, hsc, _, _⟩
      simp only [hst] at hr
      exact absurd (h hr) (by simp [hc])
    | answerEvt fid =>
      intro hr
      simp [step, hc] at hr
      exact absurd (h hr) (by simp [hc])
    | iceCandidateEvt fid c =>
      intro hr
      simp [step, hc] at hr
      exact absurd (h hr) (by simp [hc])
    | userLeft uid un =>
      intro hr
      simp [step, hc, handleUserLeft] at hr
      exact absurd (h hr) (by simp [hc])
    | existingUsers users =>
      intro hr
      simp [step, hc, handleExistingUsers] at hr
    | remoteTrack uid sid =>
      intro hr
      simp [step, handleRemoteTrack] at hr
      exact absurd (h hr) (by simp [hc])
  · have hc' : s.socketConnected = false := by
      cases hsc : s.socketConnected
      · rfl
      · exact absurd hsc hc
    intro _
    rcases step_disconnected roomId lt s e hc' with ⟨_, hsc2, _⟩
    rw [hsc2, hc']

/-- The invariant holds of every state reachable from `initState`. -/
theorem run_rejected_inv (roomId : String) (lt : List Track)
    (events : List InEvent) :
    (run roomId lt initState events).connectionStatus = ConnStatus.rejected →
      (run roomId lt initState events).socketConnected = false := by
  suffices hgen : ∀ (s : RTCState),
      (s.connectionStatus = ConnStatus.rejected → s.socketConnected = false) →
      ((run roomId lt s events).connectionStatus = ConnStatus.rejected →
        (run roomId lt s events).socketConnected = false) by
    exact hgen initState (by intro h; simp [initState] at h)
  induction events with
  | nil => intro s h; exact h
  | cons e rest ih =>
    intro s h
    exact ih (step roomId lt s e).1 (step_rejected_inv roomId lt s e h)

/-! ## Claim theorems -/

/-- C1 counterexample: the ConnectionStatus is not monotonic
forward-only.  From the initial state, `join-approved` reaches the
active state `joined`, yet a subsequent inbound `waiting-for-approval`
moves the status back to `waiting` — a retreat out of the active state
that the claim forbids. -/
theorem C1_counterexample :
    (run "room" [] initState [InEvent.joinApproved]).connectionStatus
        = ConnStatus.joined ∧
    (run "room" [] initState
        [InEvent.joinApproved, InEvent.waitingForApproval]).connectionStatus
        = ConnStatus.waiting := by
  constructor <;> rfl

/-- C1 (amended): inbound status events set the ConnectionStatus
unconditionally, so the status is not monotonic (a
`waiting-for-approval` arriving after `joined` regresses the status to
`waiting`); however `rejected` is terminal: `join-rejected` sets the
status to `rejected` and closes the signaling channel, and from any
reachable rejected state no further inbound event changes the status. -/
theorem C1_rejected_terminal (roomId : String) (lt : List Track)
    (events : List InEvent) (e : InEvent)
    (h : (run roomId lt initState events).connectionStatus = ConnStatus.rejected) :
    (step roomId lt (run roomId lt initState events) e).1.connectionStatus
      = ConnStatus.rejected := by
  have hdisc := run_rejected_inv roomId lt events h
  rcases step_disconnected roomId lt (run roomId lt initState events) e hdisc
    with ⟨hst, _, _⟩
  rw [hst, h]

/-- C1 witness: after the inbound sequence `[join-rejected]` the status
is `rejected`, and a further `join-approved` leaves it `rejected`. -/
theorem C1_rejected_terminal_witness :
    (step "room" [] (run "room" [] initState [InEvent.joinRejected])
        InEvent.joinApproved).1.connectionStatus = ConnStatus.rejected :=
  C1_rejected_terminal "room" [] [InEvent.joinRejected] InEvent.joinApproved
    (by rfl)

/-- C2 counterexample: two inbound `join-request` events for the same
requester id both enqueue, so the pending queue holds two entries for
requester "alice" while her request is pending. -/
theorem C2_counterexample :
    (run "room" [] initState
        [InEvent.joinRequest "alice" "Alice",
         InEvent.joinRequest "alice" "Alice"]).pendingRequests
      = [{ userId := "alice", userName := "Alice" },
         { userId := "alice", userName := "Alice" }] := by
  rfl

/-- C2 (amended): an inbound `join-request` appends its entry to the
pending queue unconditionally, so the queue can hold duplicate entries
for the same pending requester; `admitUser`/`rejectUser` remove every
entry carrying the decided id. -/
theorem C2_join_request_appends (roomId : String) (lt : List Track)
    (s s' : RTCState) (uid un uid' : String)
    (h : s.socketConnected = true) :
    (step roomId lt s (InEvent.joinRequest uid un)).1.pendingRequests
        = s.pendingRequests ++ [{ userId := uid, userName := un }] ∧
    (∀ r ∈ (admitUser roomId s' uid').1.pendingRequests, r.userId ≠ uid') ∧
    (∀ r ∈ (rejectUser roomId s' uid').1.pendingRequests, r.userId ≠ uid') := by
  refine ⟨by simp [step, h, handleJoinRequest], ?_, ?_⟩
  · intro r hr
    simp only [admitUser, List.mem_filter] at hr
    simpa using hr.2
  · intro r hr
    simp only [rejectUser, List.mem_filter] at hr
    simpa using hr.2

/-- C2 witness: concrete instance of the amended claim. -/
theorem C2_join_request_appends_witness :
    (step "room" [] initState (InEvent.joinRequest "alice" "Alice")).1.pendingRequests
        = [{ userId := "alice", userName := "Alice" }] ∧
    (∀ r ∈ (admitUser "room"
        { initState with pendingRequests :=
            [{ userId := "alice", userName := "Alice" },
             { userId := "alice", userName := "A2" }] } "alice").1.pendingRequests,
      r.userId ≠ "alice") := by
  have h := C2_join_request_appends "room" [] initState
    { initState with pendingRequests :=
        [{ userId := "alice", userName := "Alice" },
         { userId := "alice", userName := "A2" }] }
    "alice" "Alice" "alice" (by rfl)
  exact ⟨h.1, h.2.1⟩

/-- C3 counterexample: a fired flush timer for a peer with two queued
candidates emits two `ice-candidate` messages, not a single message
carrying both. -/
theorem C3_counterexample :
    (fireIceTimer "room"
        { queue := [("peer", [1, 2])], timers := [("peer", 60)] } "peer").2
      = [OutMsg.iceCandidate "room" "peer" 1,
         OutMsg.iceCandidate "room" "peer" 2] ∧
    ((fireIceTimer "room"
        { queue := [("peer", [1, 2])], timers := [("peer", 60)] } "peer").2).length
      ≠ 1 := by
  constructor
  · rfl
  · decide

/-- C3 (amended): when a peer's quiet-period timer fires, every
candidate queued for that peer is sent, each as its own `ice-candidate`
signaling message (one outbound message per coalesced candidate, all at
the flush instant), and the peer's queue and timer entries are
removed. -/
theorem C3_flush_per_candidate (roomId : String) (st : IceState) (uid : String) :
    (fireIceTimer roomId st uid).2
        = ((mapGet st.queue uid).getD []).map
            (fun c => OutMsg.iceCandidate roomId uid c) ∧
    ((fireIceTimer roomId st uid).2).length
        = ((mapGet st.queue uid).getD []).length ∧
    (mapGet (fireIceTimer roomId st uid).1.queue uid).getD [] = [] ∧
    mapGet (fireIceTimer roomId st uid).1.timers uid = none := by
  by_cases h : ((mapGet st.queue uid).getD []).length > 0
  · simp [fireIceTimer, if_pos h, mapGet_mapDelete_same]
  · have hq : (mapGet st.queue uid).getD [] = [] := by
      cases hg : (mapGet st.queue uid).getD [] with
      | nil => rfl
      | cons a l => rw [hg] at h; simp at h
    simp [fireIceTimer, if_neg h, hq, mapGet_mapDelete_same]

/-- Every candidate fed into the debounce buffer is flushed exactly
once, in order: the concatenation of the flush contents equals the
input candidate sequence. -/
theorem iceRun_conservation (events : List (Nat × Nat)) (q : List Nat) (dl : Nat) :
    ((iceRun events q (some dl)).map Prod.snd).flatten = q ++ events.map Prod.snd := by
  induction events generalizing q dl with
  | nil =>
    by_cases h : q.length > 0
    · simp [iceRun, h]
    · have hq : q = [] := by
        cases q with
        | nil => rfl
        | cons a l => simp at h
      simp [iceRun, hq]
  | cons tc rest ih =>
    rcases tc with ⟨t, c⟩
    rw [iceRun]
    by_cases hle : dl ≤ t
    · simp only [hle, if_true]
      by_cases h : q.length > 0
      · simp only [h, if_true, List.map_cons, List.flatten]
        rw [ih]
        simp
      · have hq : q = [] := by
          cases q with
          | nil => rfl
          | cons a l => simp at h
        simp only [h, if_false]
        rw [ih]
        simp [hq]
    · simp only [hle, if_false]
      rw [ih]
      simp

/-- C4: ICE candidate batching is a per-peer 50 ms debounce.  For the
gathering trace C1 at t=0, C2 at t=10, C3 at t=70 it produces exactly
two flushes, {C1, C2} at t=60 and {C3} at t=120; and over every
gathering trace, each queued candidate is sent in exactly one flush
(flush contents concatenate to the full candidate sequence). -/
theorem C4_debounce :
    iceFlushes [(0, 1), (10, 2), (70, 3)] = [(60, [1, 2]), (120, [3])] ∧
    ∀ events : List (Nat × Nat),
      ((iceFlushes events).map Prod.snd).flatten = events.map Prod.snd := by
  refine ⟨by rfl, ?_⟩
  intro events
  cases events with
  | nil => rfl
  | cons tc rest =>
    rcases tc with ⟨t, c⟩
    show ((iceRun ((t, c) :: rest) [] none).map Prod.snd).flatten = _
    rw [iceRun]
    simpa using iceRun_conservation rest [c] (t + 50)

/-- C5: connection creation is idempotent.  A `createPeerConnection`
call for a peer id that already has a connection returns the state
unchanged and emits nothing; in particular any second call for the same
peer id after a first call is a no-op, so at most one PeerConnection
(with one set of attached local tracks) exists per peer id. -/
theorem C5_createPeerConnection_idempotent (roomId : String)
    (lt lt' : List Track) (s : RTCState) (uid un un' : String) (b b' : Bool) :
    (mapHas s.peers uid = true →
      createPeerConnection roomId s uid un b lt = (s, [])) ∧
    createPeerConnection roomId (createPeerConnection roomId s uid un b lt).1
        uid un' b' lt'
      = ((createPeerConnection roomId s uid un b lt).1, []) := by
  constructor
  · intro h
    unfold createPeerConnection
    rw [if_pos h]
  · have hh := createPeerConnection_has roomId s uid un b lt
    set s1 := (createPeerConnection roomId s uid un b lt).1 with hs1
    unfold createPeerConnection
    rw [if_pos hh]

/-- C5 witness: concrete instances — a creation request for the known
peer id "p" is a no-op, and a repeated creation after a fresh creation
is a no-op. -/
theorem C5_createPeerConnection_idempotent_witness :
    createPeerConnection "room"
        { initState with peers := [("p", { senders := [] })] } "p" "Pat" true []
      = ({ initState with peers := [("p", { senders := [] })] }, []) ∧
    createPeerConnection "room"
        (createPeerConnection "room" initState "p" "Pat" true
          [{ kind := "audio", tid := 1 }]).1 "p" "Pat" false []
      = ((createPeerConnection "room" initState "p" "Pat" true
          [{ kind := "audio", tid := 1 }]).1, []) := by
  have h1 := C5_createPeerConnection_idempotent "room" [] []
    { initState with peers := [("p", { senders := [] })] } "p" "Pat" "Pat" true true
  have h2 := C5_createPeerConnection_idempotent "room"
    [{ kind := "audio", tid := 1 }] [] initState "p" "Pat" "Pat" true false
  exact ⟨h1.1 (by rfl), h2.2⟩

/-! ### Support lemmas for `replaceTrack` -/

theorem findIdx?_shift {α : Type} (p : α → Bool) (l : List α) :
    ∀ i, List.findIdx? p l i = (List.findIdx? p l 0).map (fun j => j + i) := by
  induction l with
  | nil => intro i; simp
  | cons a rest ih =>
    intro i
    rw [List.findIdx?_cons, List.findIdx?_cons]
    by_cases hp : p a = true
    · simp [hp]
    · simp only [hp, Bool.false_eq_true, if_false]
      rw [ih (i + 1), ih 1]
      cases hf : List.findIdx? p rest 0 with
      | none => simp
      | some j => simp; omega

theorem replaceSenders_length (senders : List Sender) (t : Track) :
    (replaceSenders senders t).length = senders.length := by
  induction senders with
  | nil => rfl
  | cons sd rest ih =>
    rw [replaceSenders]
    by_cases hp : (sd.track.map Track.kind == some t.kind) = true
    · simp [hp]
    · simp only [hp, Bool.false_eq_true, if_false, List.length_cons, ih]

theorem replaceSenders_getD (senders : List Sender) (t : Track) (i : Nat) :
    (replaceSenders senders t).getD i { track := none } =
      (if senders.findIdx? (fun sd => sd.track.map Track.kind == some t.kind)
          = some i
       then { track := some t }
       else senders.getD i { track := none }) := by
  induction senders generalizing i with
  | nil => simp [replaceSenders]
  | cons sd rest ih =>
    rw [replaceSenders, List.findIdx?_cons]
    by_cases hp : (sd.track.map Track.kind == some t.kind) = true
    · rw [if_pos hp, if_pos hp]
      cases i with
      | zero => simp
      | succ j => simp
    · rw [if_neg hp, if_neg hp]
      rw [findIdx?_shift _ rest 1]
      cases i with
      | zero =>
        cases hf : List.findIdx? (fun sd => sd.track.map Track.kind == some t.kind) rest 0 with
        | none => simp [hf]
        | some j => simp [hf]
      | succ j =>
        rw [List.getD_cons_succ, List.getD_cons_succ, ih j]
        cases hf : List.findIdx? (fun sd => sd.track.map Track.kind == some t.kind) rest 0 with
        | none => simp [hf]
        | some j' =>
          by_cases hj : j' = j
          · simp [hf, hj]
          · simp [hf, hj]

theorem replaceSenders_no_match (senders : List Sender) (t : Track)
    (h : ∀ sd ∈ senders, ¬ sd.track.map Track.kind = some t.kind) :
    replaceSenders senders t = senders := by
  induction senders with
  | nil => rfl
  | cons sd rest ih =>
    rw [replaceSenders]
    have hp : (sd.track.map Track.kind == some t.kind) = false := by
      simpa using h sd (by simp)
    rw [hp]
    simp only [Bool.false_eq_true, if_false]
    rw [ih (fun x hx => h x (by simp [hx]))]

theorem mapGet_map_values {α β : Type} (m : List (String × α)) (f : α → β)
    (k : String) :
    mapGet (m.map (fun kv => (kv.1, f kv.2))) k = (mapGet m k).map f := by
  induction m with
  | nil => rfl
  | cons kv rest ih =>
    by_cases h : kv.1 = k
    · simp [mapGet, h]
    · have hb : (kv.1 == k) = false := by simp [h]
      simpa [mapGet, hb] using ih

/-- C6: `replaceTrack(newTrack)` rewrites, inside each held connection,
exactly the first sender whose current track kind equals
`newTrack.kind` (a matching sender at index `i` receives the new track;
every other index is unchanged; list length is preserved); a connection
whose senders have no matching kind is left exactly as it was; and per
connection the update depends only on that connection's own senders.
Concretely, with connection "a" holding an audio and a video sender and
connection "b" holding only an audio sender, replacing with a video
track updates exactly the one video sender of "a". -/
theorem C6_replaceTrack_per_connection (senders : List Sender)
    (t : Track) (i : Nat) (peers : List (String × PeerConn)) (uid : String) :
    (replaceSenders senders t).length = senders.length ∧
    (replaceSenders senders t).getD i { track := none } =
      (if senders.findIdx? (fun sd => sd.track.map Track.kind == some t.kind)
          = some i
       then { track := some t }
       else senders.getD i { track := none }) ∧
    ((∀ sd ∈ senders, ¬ sd.track.map Track.kind = some t.kind) →
      replaceSenders senders t = senders) ∧
    mapGet (replaceTrack peers t) uid
      = (mapGet peers uid).map (fun pc => { senders := replaceSenders pc.senders t }) ∧
    replaceTrack
        [("a", { senders := [{ track := some { kind := "audio", tid := 1 } },
                             { track := some { kind := "video", tid := 2 } }] }),
         ("b", { senders := [{ track := some { kind := "audio", tid := 3 } }] })]
        { kind := "video", tid := 9 }
      = [("a", { senders := [{ track := some { kind := "audio", tid := 1 } },
                             { track := some { kind := "video", tid := 9 } }] }),
         ("b", { senders := [{ track := some { kind := "audio", tid := 3 } }] })] := by
  refine ⟨replaceSenders_length senders t, replaceSenders_getD senders t i,
    replaceSenders_no_match senders t, ?_, by rfl⟩
  exact mapGet_map_values peers
    (fun pc => ({ senders := replaceSenders pc.senders t } : PeerConn)) uid

/-- C6 witness: a connection holding only an audio sender is unchanged
by a video-track replacement. -/
theorem C6_replaceTrack_per_connection_witness :
    replaceSenders [{ track := some { kind := "audio", tid := 3 } }]
        { kind := "video", tid := 9 }
      = [{ track := some { kind := "audio", tid := 3 } }] :=
  (C6_replaceTrack_per_connection
      [{ track := some { kind := "audio", tid := 3 } }]
      { kind := "video", tid := 9 } 0 [] "a").2.2.1 (by decide)

/-- C7: processing an `existing-users` roster snapshot deduplicates by
peer id and moves the status to `joined`: the resulting roster carries
no duplicate ids, its ids are exactly the distinct userIds of the
snapshot, the status is `joined`, and the snapshot
`[{A},{A},{B}]` yields a roster of exactly `[A, B]`. -/
theorem C7_existing_users_dedup (s : RTCState) (users : List UserInfo)
    (uid : String) :
    ((handleExistingUsers s users).participants.map Participant.id).Nodup ∧
    (uid ∈ (handleExistingUsers s users).participants.map Participant.id ↔
      uid ∈ users.map UserInfo.userId) ∧
    (handleExistingUsers s users).connectionStatus = ConnStatus.joined ∧
    (handleExistingUsers initState
        [{ userId := "A", userName := "alice" },
         { userId := "A", userName := "alice" },
         { userId := "B", userName := "bob" }]).participants.map Participant.id
      = ["A", "B"] := by
  have hids : (handleExistingUsers s users).participants.map Participant.id
      = (dedupExistingUsers users).map UserInfo.userId := by
    simp [handleExistingUsers, List.map_map, Function.comp, newParticipant]
  refine ⟨?_, ?_, rfl, by rfl⟩
  · rw [hids, dedupExistingUsers_eq_firstOcc]
    exact firstOcc_nodup users []
  · rw [hids, dedupExistingUsers_eq_firstOcc]
    rw [firstOcc_mem_iff users [] uid]
    simp

/-- C8: a "user-joined" followed by a "user-left" for the same peer id
leaves no Participant with that id in the roster and no PeerConnection
for that id in the peer map; the connection created on join was
`close()`d on leave. -/
theorem C8_join_then_leave (roomId : String) (lt : List Track) (s : RTCState)
    (uid un un' : String) (h : s.socketConnected = true) :
    (∀ p ∈ (run roomId lt s
        [InEvent.userJoined uid un, InEvent.userLeft uid un']).participants,
      p.id ≠ uid) ∧
    mapGet (run roomId lt s
        [InEvent.userJoined uid un, InEvent.userLeft uid un']).peers uid = none ∧
    uid ∈ (run roomId lt s
        [InEvent.userJoined uid un, InEvent.userLeft uid un']).closedIds := by
  have hrun : run roomId lt s [InEvent.userJoined uid un, InEvent.userLeft uid un']
      = (step roomId lt (step roomId lt s (InEvent.userJoined uid un)).1
          (InEvent.userLeft uid un')).1 := rfl
  rw [hrun]
  set s1 := (step roomId lt s (InEvent.userJoined uid un)).1 with hs1
  have hs1eq : s1 = (createPeerConnection roomId
      { s with participants :=
          if s.participants.any (fun p => p.id == uid) then s.participants
          else s.participants ++ [newParticipant uid un] }
      uid un true lt).1 := by
    rw [hs1]
    simp [step, h, handleUserJoined]
  have hs1conn : s1.socketConnected = true := by
    rw [hs1eq, (createPeerConnection_fields _ _ _ _ _ _).2.1]
    exact h
  have hhas : mapHas s1.peers uid = true := by
    rw [hs1eq]
    exact createPeerConnection_has _ _ _ _ _ _
  have hstep2 : (step roomId lt s1 (InEvent.userLeft uid un')).1
      = handleUserLeft s1 uid := by
    simp [step, hs1conn]
  rw [hstep2]
  refine ⟨?_, ?_, ?_⟩
  · intro p hp
    rw [handleUserLeft] at hp
    simp only [List.mem_filter] at hp
    simpa using hp.2
  · rw [handleUserLeft]
    exact mapGet_mapDelete_same _ _
  · rw [handleUserLeft]
    simp [hhas]

/-- C8 witness: concrete join-then-leave for peer "x" from the initial
state. -/
theorem C8_join_then_leave_witness :
    (∀ p ∈ (run "room" [{ kind := "video", tid := 7 }] initState
        [InEvent.userJoined "x" "X", InEvent.userLeft "x" "X"]).participants,
      p.id ≠ "x") ∧
    mapGet (run "room" [{ kind := "video", tid := 7 }] initState
        [InEvent.userJoined "x" "X", InEvent.userLeft "x" "X"]).peers "x" = none :=
  ⟨(C8_join_then_leave "room" [{ kind := "video", tid := 7 }] initState
      "x" "X" "X" (by rfl)).1,
   (C8_join_then_leave "room" [{ kind := "video", tid := 7 }] initState
      "x" "X" "X" (by rfl)).2.1⟩

/-- C9: `admitUser(id)` / `rejectUser(id)` emit exactly the
corresponding decision message and remove every pending request
carrying that id from the queue; invoked with an id that has no pending
request (unknown or already resolved) they leave the queue exactly
unchanged, and being total functions they raise no error. -/
theorem C9_admit_reject (roomId : String) (s : RTCState) (uid : String) :
    (admitUser roomId s uid).2 = [OutMsg.admitUserMsg uid roomId] ∧
    (rejectUser roomId s uid).2 = [OutMsg.rejectUserMsg uid roomId] ∧
    (∀ r ∈ (admitUser roomId s uid).1.pendingRequests, r.userId ≠ uid) ∧
    (∀ r ∈ (rejectUser roomId s uid).1.pendingRequests, r.userId ≠ uid) ∧
    ((∀ r ∈ s.pendingRequests, r.userId ≠ uid) →
      (admitUser roomId s uid).1.pendingRequests = s.pendingRequests ∧
      (rejectUser roomId s uid).1.pendingRequests = s.pendingRequests) := by
  refine ⟨rfl, rfl, ?_, ?_, ?_⟩
  · intro r hr
    simp only [admitUser, List.mem_filter] at hr
    simpa using hr.2
  · intro r hr
    simp only [rejectUser, List.mem_filter] at hr
    simpa using hr.2
  · intro hnone
    have hfil : s.pendingRequests.filter (fun req => req.userId != uid)
        = s.pendingRequests := by
      apply List.filter_eq_self.mpr
      intro r hr
      simpa using hnone r hr
    exact ⟨by simp [admitUser, hfil], by simp [rejectUser, hfil]⟩

/-- C9 witness: admitting the unknown id "z" leaves the queue holding
only Alice unchanged; admitting "alice" empties it. -/
theorem C9_admit_reject_witness :
    (admitUser "room"
        { initState with pendingRequests := [{ userId := "alice", userName := "A" }] }
        "z").1.pendingRequests = [{ userId := "alice", userName := "A" }] ∧
    (admitUser "room"
        { initState with pendingRequests := [{ userId := "alice", userName := "A" }] }
        "z").2 = [OutMsg.admitUserMsg "z" "room"] := by
  have h := C9_admit_reject "room"
    { initState with pendingRequests := [{ userId := "alice", userName := "A" }] } "z"
  exact ⟨(h.2.2.2.2 (by decide)).1, h.1⟩

/-- C10: every Participant created by any of the three creation paths
(`user-joined`, first-contact `offer`, `existing-users` snapshot) is
initialised with `stream = null`, `isMicOn = true`, `isCameraOn = true`;
and no inbound event other than a remote-track arrival ever makes a
participant's stream non-null — any non-null stream after a non-track
event was already present, unchanged, before it. -/
theorem C10_participant_init (roomId : String) (lt : List Track) (s : RTCState)
    (uid un : String) (users : List UserInfo) (e : InEvent) :
    (s.socketConnected = true → (∀ q ∈ s.participants, q.id ≠ uid) →
      ∀ p ∈ (step roomId lt s (InEvent.userJoined uid un)).1.participants,
        p.id = uid →
          p.stream = none ∧ p.isMicOn = true ∧ p.isCameraOn = true) ∧
    (s.socketConnected = true → (∀ q ∈ s.participants, q.id ≠ uid) →
      ∀ p ∈ (step roomId lt s (InEvent.offerEvt uid un)).1.participants,
        p.id = uid →
          p.stream = none ∧ p.isMicOn = true ∧ p.isCameraOn = true) ∧
    (s.socketConnected = true →
      ∀ p ∈ (step roomId lt s (InEvent.existingUsers users)).1.participants,
        p.stream = none ∧ p.isMicOn = true ∧ p.isCameraOn = true) ∧
    ((∀ uid' sid, e ≠ InEvent.remoteTrack uid' sid) →
      ∀ p ∈ (step roomId lt s e).1.participants, p.stream ≠ none →
        ∃ q ∈ s.participants, q.id = p.id ∧ q.stream = p.stream) := by
  have hfresh_any : (∀ q ∈ s.participants, q.id ≠ uid) →
      s.participants.any (fun q => q.id == uid) = false := by
    intro hfresh
    cases hA : s.participants.any (fun q => q.id == uid) with
    | false => rfl
    | true =>
      rcases List.any_eq_true.mp hA with ⟨q, hq, hqe⟩
      exact absurd (by simpa using hqe) (hfresh q hq)
  refine ⟨?_, ?_, ?_, ?_⟩
  · intro hc hfresh p hp hpid
    simp only [step, hc, if_true, handleUserJoined] at hp
    rw [(createPeerConnection_fields _ _ _ _ _ _).2.2.1] at hp
    simp only [hfresh_any hfresh, Bool.false_eq_true, if_false] at hp
    rcases List.mem_append.mp hp with h1 | h1
    · exact absurd hpid (hfresh p h1)
    · have hpn : p = newParticipant uid un := by simpa using h1
      rw [hpn]
      exact ⟨rfl, rfl, rfl⟩
  · intro hc hfresh p hp hpid
    simp only [step, hc, if_true, handleOffer] at hp
    rw [(createPeerConnection_fields _ _ _ _ _ _).2.2.1] at hp
    simp only [hfresh_any hfresh, Bool.false_eq_true, if_false] at hp
    rcases List.mem_append.mp hp with h1 | h1
    · exact absurd hpid (hfresh p h1)
    · have hpn : p = newParticipant uid un := by simpa using h1
      rw [hpn]
      exact ⟨rfl, rfl, rfl⟩
  · intro hc p hp
    simp only [step, hc, if_true, handleExistingUsers] at hp
    rcases List.mem_map.mp hp with ⟨u, _, hu⟩
    rw [← hu]
    exact ⟨rfl, rfl, rfl⟩
  · intro hne p hp hstream
    by_cases hc : s.socketConnected = true
    · cases e with
      | waitingForApproval =>
        simp only [step, hc, if_true] at hp
        exact ⟨p, hp, rfl, rfl⟩
      | joinApproved =>
        simp only [step, hc, if_true] at hp
        exact ⟨p, hp, rfl, rfl⟩
      | joinRejected =>
        simp only [step, hc, if_true] at hp
        exact ⟨p, hp, rfl, rfl⟩
      | joinRequest uid2 un2 =>
        simp only [step, hc, if_true, handleJoinRequest] at hp
        exact ⟨p, hp, rfl, rfl⟩
      | answerEvt fid =>
        simp only [step, hc, if_true] at hp
        exact ⟨p, hp, rfl, rfl⟩
      | iceCandidateEvt fid c =>
        simp only [step, hc, if_true] at hp
        exact ⟨p, hp, rfl, rfl⟩
      | mediaStatusUpdate uid2 ka io =>
        simp only [step, hc, if_true, handleMediaStatusUpdate] at hp
        rcases List.mem_map.mp hp with ⟨q, hq, hfq⟩
        refine ⟨q, hq, ?_, ?_⟩ <;> rw [← hfq] <;>
          by_cases h1 : (q.id == uid2) = true <;>
            cases ka <;> simp [h1]
      | userJoined uid2 un2 =>
        simp only [step, hc, if_true, handleUserJoined] at hp
        rw [(createPeerConnection_fields _ _ _ _ _ _).2.2.1] at hp
        by_cases hA : s.participants.any (fun q => q.id == uid2) = true
        · rw [if_pos hA] at hp
          exact ⟨p, hp, rfl, rfl⟩
        · rw [if_neg hA] at hp
          rcases List.mem_append.mp hp with h1 | h1
          · exact ⟨p, h1, rfl, rfl⟩
          · have hpn : p = newParticipant uid2 un2 := by simpa using h1
            rw [hpn] at hstream
            exact absurd rfl hstream
      | offerEvt fid un2 =>
        simp only [step, hc, if_true, handleOffer] at hp
        rw [(createPeerConnection_fields _ _ _ _ _ _).2.2.1] at hp
        by_cases hA : s.participants.any (fun q => q.id == fid) = true
        · rw [if_pos hA] at hp
          exact ⟨p, hp, rfl, rfl⟩
        · rw [if_neg hA] at hp
          rcases List.mem_append.mp hp with h1 | h1
          · exact ⟨p, h1, rfl, rfl⟩
          · have hpn : p = newParticipant fid un2 := by simpa using h1
            rw [hpn] at hstream
            exact absurd rfl hstream
      | userLeft uid2 un2 =>
        simp only [step, hc, if_true, handleUserLeft] at hp
        exact ⟨p, (List.mem_filter.mp hp).1, rfl, rfl⟩
      | existingUsers users2 =>
        simp only [step, hc, if_true, handleExistingUsers] at hp
        rcases List.mem_map.mp hp with ⟨u, _, hu⟩
        rw [← hu] at hstream
        exact absurd rfl hstream
      | remoteTrack uid2 sid =>
        exact absurd rfl (hne uid2 sid)
    · have hc' : s.socketConnected = false := by
        cases hcc : s.socketConnected
        · rfl
        · exact absurd hcc hc
      cases e with
      | remoteTrack uid2 sid => exact absurd rfl (hne uid2 sid)
      | waitingForApproval =>
        simp only [step, hc', Bool.false_eq_true, if_false] at hp
        exact ⟨p, hp, rfl, rfl⟩
      | joinApproved =>
        simp only [step, hc', Bool.false_eq_true, if_false] at hp
        exact ⟨p, hp, rfl, rfl⟩
      | joinRejected =>
        simp only [step, hc', Bool.false_eq_true, if_false] at hp
        exact ⟨p, hp, rfl, rfl⟩
      | joinRequest uid2 un2 =>
        simp only [step, hc', Bool.false_eq_true, if_false] at hp
        exact ⟨p, hp, rfl, rfl⟩
      | answerEvt fid =>
        simp only [step, hc', Bool.false_eq_true, if_false] at hp
        exact ⟨p, hp, rfl, rfl⟩
      | iceCandidateEvt fid c =>
        simp only [step, hc', Bool.false_eq_true, if_false] at hp
        exact ⟨p, hp, rfl, rfl⟩
      | mediaStatusUpdate uid2 ka io =>
        simp only [step, hc', Bool.false_eq_true, if_false] at hp
        exact ⟨p, hp, rfl, rfl⟩
      | userJoined uid2 un2 =>
        simp only [step, hc', Bool.false_eq_true, if_false] at hp
        exact ⟨p, hp, rfl, rfl⟩
      | offerEvt fid un2 =>
        simp only [step, hc', Bool.false_eq_true, if_false] at hp
        exact ⟨p, hp, rfl, rfl⟩
      | userLeft uid2 un2 =>
        simp only [step, hc', Bool.false_eq_true, if_false] at hp
        exact ⟨p, hp, rfl, rfl⟩
      | existingUsers users2 =>
        simp only [step, hc', Bool.false_eq_true, if_false] at hp
        exact ⟨p, hp, rfl, rfl⟩

/-- C10 witness: the participant created for "x" by a `user-joined`
from the empty initial roster has a null stream with mic and camera on,
and a `user-left` event cannot introduce a non-null stream: the only
non-null stream after it was already present. -/
theorem C10_participant_init_witness :
    (∀ p ∈ (step "room" [] initState
        (InEvent.userJoined "x" "X")).1.participants,
      p.id = "x" → p.stream = none ∧ p.isMicOn = true ∧ p.isCameraOn = true) ∧
    (∀ p ∈ (step "room" []
        { initState with participants :=
            [{ id := "y", name := "Y", stream := some 5,
               isMicOn := true, isCameraOn := false }] }
        (InEvent.userLeft "z" "Z")).1.participants, p.stream ≠ none →
      ∃ q ∈ ({ initState with participants :=
            [{ id := "y", name := "Y", stream := some 5,
               isMicOn := true, isCameraOn := false }] } : RTCState).participants,
        q.id = p.id ∧ q.stream = p.stream) := by
  constructor
  · exact (C10_participant_init "room" [] initState "x" "X" [] InEvent.joinApproved).1
      (by rfl) (by intro q hq; simp [initState] at hq)
  · exact (C10_participant_init "room" []
      { initState with participants :=
          [{ id := "y", name := "Y", stream := some 5,
             isMicOn := true, isCameraOn := false }] }
      "x" "X" [] (InEvent.userLeft "z" "Z")).2.2.2
      (fun uid sid h => InEvent.noConfusion h)

end WebRTC
